import Mathlib

/-!
Verification development for the Isomira / Isomoira TDD orchestrator
(src/isomira.py, src/isomoira.py and the continuation of isomira.py that
holds the main run loop).

Text is modelled as lists of characters; every Python helper used by the
properties under study is transliterated as an executable Lean function.
Effectful boundaries (filesystem path resolution, subprocess spawning,
the HTTP transport) are abstracted as explicit oracle parameters; all
control flow around them is embedded faithfully.
-/

namespace Isomira

/-- Character-list view of a string literal. -/
def chars (s : String) : List Char := s.data

/-- Python's notion of whitespace for the ASCII range, as used by
str.strip, str.split and the regex class for whitespace. -/
def isPySpace (c : Char) : Bool :=
  c = ' ' || c = '\t' || c = '\n' || c = '\r' || c = '\x0b' || c = '\x0c'

/-- Regex word character (ASCII range of the Python word class). -/
def isWordChar (c : Char) : Bool :=
  c.isAlphanum || c = '_'

/-- Does s start with the literal p? -/
def startsWithChars : List Char → List Char → Bool
  | [], _ => true
  | _ :: _, [] => false
  | p :: ps, c :: cs => p = c && startsWithChars ps cs

/-- Does sub occur as a contiguous substring of s? -/
def containsSub (sub : List Char) : List Char → Bool
  | [] => startsWithChars sub []
  | s@(_ :: t) => startsWithChars sub s || containsSub sub t

/-- Index of the first occurrence of sub in s (Python str.find / str.index). -/
def strFind (sub : List Char) : List Char → Option Nat
  | [] => if startsWithChars sub [] then some 0 else none
  | s@(_ :: t) =>
    if startsWithChars sub s then some 0
    else (strFind sub t).map (· + 1)

/-- Python str.lstrip (whitespace). -/
def pyLstrip (s : List Char) : List Char := s.dropWhile isPySpace

/-- Python str.rstrip (whitespace). -/
def pyRstrip (s : List Char) : List Char :=
  (s.reverse.dropWhile isPySpace).reverse

/-- Python str.strip (whitespace). -/
def pyStrip (s : List Char) : List Char := pyRstrip (pyLstrip s)

/-- Python str.split with no argument: split on whitespace runs, no empties. -/
def splitWsGo (cur : List Char) (acc : List (List Char)) : List Char → List (List Char)
  | [] => if cur = [] then acc.reverse else (cur.reverse :: acc).reverse
  | c :: t =>
    if isPySpace c then
      if cur = [] then splitWsGo [] acc t else splitWsGo [] (cur.reverse :: acc) t
    else splitWsGo (c :: cur) acc t

/-- Python str.split with no argument. -/
def splitWs (s : List Char) : List (List Char) := splitWsGo [] [] s

/-- Decimal digit character. -/
def digitChar (n : Nat) : Char := Char.ofNat (48 + n % 10)

/-- Decimal rendering of a natural number (for f-string interpolation). -/
def natToCharsAux : Nat → Nat → List Char
  | 0, _ => []
  | f + 1, n =>
    if n < 10 then [digitChar n]
    else natToCharsAux f (n / 10) ++ [digitChar (n % 10)]

/-- Decimal rendering of a natural number. -/
def natToChars (n : Nat) : List Char := natToCharsAux (n + 1) n

/-- Index of the last newline in a list, if any. -/
def lastNlIdx : List Char → Option Nat
  | [] => none
  | c :: t =>
    match lastNlIdx t with
    | some i => some (i + 1)
    | none => if c = '\n' then some 0 else none

/-! ## Regex machinery for the sandbox patterns

The foreground patterns use only word boundaries, literals, one-or-more
whitespace and greedy dot-star, so they are transliterated into token
lists interpreted by a backtracking matcher with Python re semantics
(greedy quantifiers tried longest-first, scan for leftmost match start).
-/

/-- Token alphabet of the foreground regexes. -/
inductive Tok where
  | wb
  | lit (l : List Char)
  | ws1
  | dotstar

/-- Python regex word-boundary test between an optional previous character
and an optional next character. -/
def wordBoundary (prev next : Option Char) : Bool :=
  match prev, next with
  | none, none => false
  | none, some c => isWordChar c
  | some c, none => isWordChar c
  | some a, some b => xor (isWordChar a) (isWordChar b)

/-- Last character of the first n consumed characters, defaulting to the
previous context character. -/
def lastOr (prev : Option Char) (consumed : List Char) : Option Char :=
  match consumed.getLast? with
  | some c => some c
  | none => prev

/-- Greedy one-or-more backtracking over a consumed-prefix length, longest
first; the continuation receives the updated context and remainder. -/
def backtrackGe1 (k : Option Char → List Char → Bool) :
    Nat → Option Char → List Char → Bool
  | 0, _, _ => false
  | j + 1, prev, s =>
    k (lastOr prev (s.take (j + 1))) (s.drop (j + 1)) || backtrackGe1 k j prev s

/-- Greedy zero-or-more backtracking, longest first. -/
def backtrackGe0 (k : Option Char → List Char → Bool) :
    Nat → Option Char → List Char → Bool
  | 0, prev, s => k prev s
  | j + 1, prev, s =>
    k (lastOr prev (s.take (j + 1))) (s.drop (j + 1)) || backtrackGe0 k j prev s

/-- Match a token list at the current position (prev = character before it). -/
def matchToks : List Tok → Option Char → List Char → Bool
  | [], _, _ => true
  | .wb :: ts, prev, s => wordBoundary prev s.head? && matchToks ts prev s
  | .lit l :: ts, prev, s =>
    if startsWithChars l s then matchToks ts (lastOr prev l) (s.drop l.length)
    else false
  | .ws1 :: ts, prev, s =>
    backtrackGe1 (matchToks ts) (s.takeWhile isPySpace).length prev s
  | .dotstar :: ts, prev, s =>
    backtrackGe0 (matchToks ts) (s.takeWhile (fun c => !(c = '\n'))).length prev s

/-- re.search: does the token pattern match at some position? -/
def reSearchGo (toks : List Tok) (prev : Option Char) : List Char → Bool
  | [] => matchToks toks prev []
  | s@(c :: t) => matchToks toks prev s || reSearchGo toks (some c) t

/-- re.search from the start of the string. -/
def reSearch (toks : List Tok) (s : List Char) : Bool := reSearchGo toks none s

/-- FOREGROUND_PATTERNS: pattern source text paired with its token form. -/
def FOREGROUND_PATTERNS : List (String × List Tok) :=
  [ ("\\btail\\s+-f\\b", [.wb, .lit (chars "tail"), .ws1, .lit (chars "-f"), .wb]),
    ("\\bwatch\\b", [.wb, .lit (chars "watch"), .wb]),
    ("\\bpython\\s+-m\\s+http\\.server\\b",
      [.wb, .lit (chars "python"), .ws1, .lit (chars "-m"), .ws1,
       .lit (chars "http.server"), .wb]),
    ("\\bnpm\\s+run\\s+dev\\b",
      [.wb, .lit (chars "npm"), .ws1, .lit (chars "run"), .ws1,
       .lit (chars "dev"), .wb]),
    ("\\bnpm\\s+start\\b", [.wb, .lit (chars "npm"), .ws1, .lit (chars "start"), .wb]),
    ("\\bnode\\s+.*--watch\\b",
      [.wb, .lit (chars "node"), .ws1, .dotstar, .lit (chars "--watch"), .wb]),
    ("\\bflask\\s+run\\b", [.wb, .lit (chars "flask"), .ws1, .lit (chars "run"), .wb]),
    ("\\buvicorn\\b", [.wb, .lit (chars "uvicorn"), .wb]),
    ("\\bgunicorn\\b", [.wb, .lit (chars "gunicorn"), .wb]),
    ("\\bjupyter\\b", [.wb, .lit (chars "jupyter"), .wb]),
    ("\\bless\\b", [.wb, .lit (chars "less"), .wb]),
    ("\\bmore\\b", [.wb, .lit (chars "more"), .wb]),
    ("\\bvi\\b", [.wb, .lit (chars "vi"), .wb]),
    ("\\bvim\\b", [.wb, .lit (chars "vim"), .wb]),
    ("\\bnano\\b", [.wb, .lit (chars "nano"), .wb]),
    ("\\btop\\b", [.wb, .lit (chars "top"), .wb]),
    ("\\bhtop\\b", [.wb, .lit (chars "htop"), .wb]) ]

/-- First foreground pattern (source text) matching the command, if any. -/
def fgSearch (s : List Char) : Option String :=
  (FOREGROUND_PATTERNS.find? (fun pr => reSearch pr.2 s)).map (·.1)

/-! ## _WRITE_INDICATORS

The alternation r"\s>\s|\s>>\s|>(?!/dev/null)|\btee\s|\bmv\s|\bcp\s|\brm\s
|\brmdir\s|\bmkdir\s|\btouch\s|\bchmod\s|\bchown\s|\bln\s|\binstall\s|\bdd\s
|\bwget\s|\bcurl\s.*-o" is implemented as a per-position test scanned over
the whole command (a Bool search; match position is never used). -/

/-- One alternative of the indicator: a space-padded single redirect. -/
def wiRedirect1 : List Char → Bool
  | a :: b :: c :: _ => isPySpace a && b = '>' && isPySpace c
  | _ => false

/-- One alternative: a space-padded double redirect. -/
def wiRedirect2 : List Char → Bool
  | a :: b :: c :: d :: _ => isPySpace a && b = '>' && c = '>' && isPySpace d
  | _ => false

/-- One alternative: a bare redirect not followed by /dev/null. -/
def wiBareRedirect : List Char → Bool
  | c :: t => c = '>' && !(startsWithChars (chars "/dev/null") t)
  | _ => false

/-- One alternative: word-boundary, command name, then one whitespace. -/
def wiWord (name : List Char) (prev : Option Char) (s : List Char) : Bool :=
  wordBoundary prev s.head? && startsWithChars name s &&
    ((s.drop name.length).head?.elim false isPySpace)

/-- One alternative: curl followed by -o later on the same line. -/
def wiCurl (prev : Option Char) (s : List Char) : Bool :=
  wordBoundary prev s.head? && startsWithChars (chars "curl") s &&
    ((s.drop 4).head?.elim false isPySpace) &&
    containsSub (chars "-o") ((s.drop 5).takeWhile (fun c => !(c = '\n')))

/-- Names of the simple word-then-space indicator alternatives. -/
def wiNames : List (List Char) :=
  [chars "tee", chars "mv", chars "cp", chars "rm", chars "rmdir",
   chars "mkdir", chars "touch", chars "chmod", chars "chown", chars "ln",
   chars "install", chars "dd", chars "wget"]

/-- _WRITE_INDICATORS tested at one position. -/
def wiAt (prev : Option Char) (s : List Char) : Bool :=
  wiRedirect1 s || wiRedirect2 s || wiBareRedirect s ||
    wiNames.any (fun n => wiWord n prev s) || wiCurl prev s

/-- _WRITE_INDICATORS.search over all positions. -/
def wiSearchGo (prev : Option Char) : List Char → Bool
  | [] => wiAt prev []
  | s@(c :: t) => wiAt prev s || wiSearchGo (some c) t

/-- _WRITE_INDICATORS.search on a command string. -/
def wiSearch (s : List Char) : Bool := wiSearchGo none s

/-! ## _resolve_write_targets

Each finditer rule is a specialised scanner replicating the greedy and
lazy quantifier behaviour of its regex, resuming after each match. All
scanners carry fuel bounded by the string length (each step consumes at
least one character). -/

/-- Consume \s* then a nonempty \S+ target; returns target and remainder. -/
def wsThenTarget (s : List Char) : Option (List Char × List Char) :=
  let s1 := s.dropWhile isPySpace
  let tgt := s1.takeWhile (fun c => !isPySpace c)
  if tgt = [] then none else some (tgt, s1.drop tgt.length)

/-- Rule: finditer r">{1,2}\s*(\S+)" (greedy count, try two then one). -/
def ruleRedirGo : Nat → List Char → List (List Char)
  | 0, _ => []
  | _ + 1, [] => []
  | fuel + 1, c :: t =>
    if c = '>' then
      match t with
      | c2 :: t2 =>
        if c2 = '>' then
          match wsThenTarget t2 with
          | some (tgt, rest) => tgt :: ruleRedirGo fuel rest
          | none =>
            match wsThenTarget t with
            | some (tgt, rest) => tgt :: ruleRedirGo fuel rest
            | none => ruleRedirGo fuel t
        else
          match wsThenTarget t with
          | some (tgt, rest) => tgt :: ruleRedirGo fuel rest
          | none => ruleRedirGo fuel t
      | [] => []
    else ruleRedirGo fuel t

/-- Rule: finditer r"\btee\s+(?:-a\s+)?(\S+)" at one position; returns
target and remainder on success. -/
def teeAt (prev : Option Char) (s : List Char) : Option (List Char × List Char) :=
  if wordBoundary prev s.head? && startsWithChars (chars "tee") s then
    let t := s.drop 3
    let w := t.takeWhile isPySpace
    if w = [] then none
    else
      let u := t.drop w.length
      let withFlag :=
        if startsWithChars (chars "-a") u then
          let v := u.drop 2
          let w2 := v.takeWhile isPySpace
          if w2 = [] then none
          else
            let z := (v.drop w2.length).takeWhile (fun c => !isPySpace c)
            if z = [] then none
            else some (z, (v.drop w2.length).drop z.length)
        else none
      match withFlag with
      | some r => some r
      | none =>
        let z := u.takeWhile (fun c => !isPySpace c)
        if z = [] then none else some (z, u.drop z.length)
  else none

/-- Scanner for the tee rule. -/
def ruleTeeGo : Nat → Option Char → List Char → List (List Char)
  | 0, _, _ => []
  | _ + 1, prev, [] => (teeAt prev []).elim [] (fun r => [r.1])
  | fuel + 1, prev, s@(c :: t) =>
    match teeAt prev s with
    | some (tgt, rest) => tgt :: ruleTeeGo fuel (some ' ') rest
    | none => ruleTeeGo fuel (some c) t

/-- Command names of the token-list rule
r"\b(?:rm|mv|cp|mkdir|touch|chmod|chown|ln)\s+(.+?)(?:\s*[;&|]|$)". -/
def unixWriteNames : List (List Char) :=
  [chars "rm", chars "mv", chars "cp", chars "mkdir", chars "touch",
   chars "chmod", chars "chown", chars "ln"]

/-- Tail test (?:\s*[;&|]|$): returns consumed length on success ($ and
end-before-final-newline consume nothing). -/
def unixTailCheck (s : List Char) : Option Nat :=
  let w := s.takeWhile isPySpace
  match (s.drop w.length).head? with
  | some c =>
    if c = ';' || c = '&' || c = '|' then some (w.length + 1)
    else if s = ['\n'] then some 0 else none
  | none => some 0

/-- Lazy group (.+?) search: grow the group one character at a time until
the tail matches; group characters cannot be newlines. -/
def unixLazyGroup (acc : List Char) : List Char → Option (List Char × List Char)
  | [] => none
  | c :: t =>
    if c = '\n' then none
    else
      match unixTailCheck t with
      | some consumed => some ((acc ++ [c]), t.drop consumed)
      | none => unixLazyGroup (acc ++ [c]) t

/-- The rm/mv/cp/... rule at one position: \b, a name, \s+ (greedy with
backtracking into the lazy group), then the lazy group. -/
def unixTryWs (rest : List Char) : Nat → Option (List Char × List Char)
  | 0 => none
  | j + 1 =>
    match unixLazyGroup [] (rest.drop (j + 1)) with
    | some r => some r
    | none => unixTryWs rest j

/-- One-position attempt for the rm/mv/cp/... rule. -/
def unixAt (prev : Option Char) (s : List Char) : Option (List Char × List Char) :=
  if wordBoundary prev s.head? then
    (unixWriteNames.firstM (fun n =>
      if startsWithChars n s then
        let rest := s.drop n.length
        unixTryWs rest (rest.takeWhile isPySpace).length
      else none))
  else none

/-- Scanner for the rm/mv/cp/... rule; emits the split tokens of each
group that do not start with a dash. -/
def ruleUnixGo : Nat → Option Char → List Char → List (List Char)
  | 0, _, _ => []
  | _ + 1, _, [] => []
  | fuel + 1, prev, s@(c :: t) =>
    match unixAt prev s with
    | some (grp, rest) =>
      ((splitWs grp).filter (fun tok => !(tok.head? = some '-'))) ++
        ruleUnixGo fuel (some ' ') rest
    | none => ruleUnixGo fuel (some c) t

/-- Greedy .* then a literal flag then \s*(\S+): try the rightmost flag
occurrence first (dl = number of characters given to the dot-star). -/
def dlTryFlag (flag : List Char) (line : List Char) : Nat → Option (List Char × List Char)
  | 0 =>
    if startsWithChars flag line then
      match wsThenTarget (line.drop flag.length) with
      | some r => some r
      | none => none
    else none
  | j + 1 =>
    (if startsWithChars flag (line.drop (j + 1)) then
      match wsThenTarget ((line.drop (j + 1)).drop flag.length) with
      | some r => some r
      | none => dlTryFlag flag line j
    else dlTryFlag flag line j)

/-- One-position attempt for r"\b(?:wget\s+.*-O|curl\s+.*-o)\s*(\S+)".
The greedy \s+ is tried longest first and crosses newlines; the dot-star
then scans the line beginning after the run. Shorter \s+ choices start
the dot-star inside the whitespace run, where the line up to the next
newline holds no dash, so they add no flag occurrence and the longest
run is committing. -/
def dlAt (prev : Option Char) (s : List Char) : Option (List Char × List Char) :=
  if wordBoundary prev s.head? then
    let tryName := fun (name flag : List Char) =>
      if startsWithChars name s then
        let rest := s.drop name.length
        let w := rest.takeWhile isPySpace
        if w = [] then none
        else
          let line := rest.drop w.length
          dlTryFlag flag line (line.takeWhile (fun c => !(c = '\n'))).length
      else none
    match tryName (chars "wget") (chars "-O") with
    | some r => some r
    | none => tryName (chars "curl") (chars "-o")
  else none

/-- Scanner for the wget -O / curl -o rule. -/
def ruleDlGo : Nat → Option Char → List Char → List (List Char)
  | 0, _, _ => []
  | _ + 1, _, [] => []
  | fuel + 1, prev, s@(c :: t) =>
    match dlAt prev s with
    | some (tgt, rest) => tgt :: ruleDlGo fuel (some ' ') rest
    | none => ruleDlGo fuel (some c) t

/-- One-position attempt for r"(?:-o|--output)\s+(\S+)" (no boundary). -/
def flagAt (s : List Char) : Option (List Char × List Char) :=
  let viaLit := fun (l : List Char) =>
    if startsWithChars l s then
      let rest := s.drop l.length
      let w := rest.takeWhile isPySpace
      if w = [] then none
      else
        let z := (rest.drop w.length).takeWhile (fun c => !isPySpace c)
        if z = [] then none else some (z, (rest.drop w.length).drop z.length)
    else none
  match viaLit (chars "-o") with
  | some r => some r
  | none => viaLit (chars "--output")

/-- Scanner for the -o and --output generic flag rule. -/
def ruleFlagGo : Nat → List Char → List (List Char)
  | 0, _ => []
  | _ + 1, [] => []
  | fuel + 1, s@(_ :: t) =>
    match flagAt s with
    | some (tgt, rest) => tgt :: ruleFlagGo fuel rest
    | none => ruleFlagGo fuel t

/-- _resolve_write_targets: the five finditer rules, results concatenated
in source order. -/
def resolveWriteTargets (cmd : List Char) : List (List Char) :=
  ruleRedirGo (cmd.length + 1) cmd ++
    ruleTeeGo (cmd.length + 1) none cmd ++
    ruleUnixGo (cmd.length + 1) none cmd ++
    ruleDlGo (cmd.length + 1) none cmd ++
    ruleFlagGo (cmd.length + 1) cmd

/-! ## sandbox_check and execute_command -/

/-- SUDO_ALLOWLIST. -/
def SUDO_ALLOWLIST : List (List Char) :=
  [chars "apt", chars "apt-get", chars "dpkg", chars "systemctl",
   chars "service", chars "kill", chars "killall", chars "pkill",
   chars "lsof", chars "fuser", chars "ufw", chars "netstat", chars "ss"]

/-- Sorted, comma-joined allowlist as interpolated into the block reason. -/
def sudoAllowlistJoined : List Char :=
  chars "apt, apt-get, dpkg, fuser, kill, killall, lsof, netstat, pkill, service, ss, systemctl, ufw"

/-- re.match r"^sudo\s+(\S+)": the first sudo argument token, if present. -/
def sudoSub (s : List Char) : Option (List Char) :=
  if startsWithChars (chars "sudo") s then
    let t := s.drop 4
    let w := t.takeWhile isPySpace
    if w = [] then none
    else
      let u := (t.drop w.length).takeWhile (fun c => !isPySpace c)
      if u = [] then none else some u
  else none

/-- token.rsplit("/", 1)[-1]: the basename of the sudo subcommand. -/
def basenameChars (s : List Char) : List Char :=
  (s.reverse.takeWhile (fun c => !(c = '/'))).reverse

/-- stripped[stripped.index(sub):]; the basename is always a substring of
the stripped command, so the fallback arm is unreachable. -/
def dropBeforeFirst (s sub : List Char) : List Char :=
  match strFind sub s with
  | some i => s.drop i
  | none => []

/-- The inner sudo command contains one of the five write operators. -/
def sudoOpsPresent (inner : List Char) : Bool :=
  containsSub (chars "rm ") inner || containsSub (chars "mv ") inner ||
    containsSub (chars "cp ") inner || containsSub (chars "chmod ") inner ||
    containsSub (chars "chown ") inner

/-- _is_inside_workspace: the /dev/null special cases are kept verbatim;
the filesystem-dependent resolve-and-prefix-compare step is the oracle
parameter (true when (workspace / target).resolve() stays under the
resolved workspace). -/
def insideWs (resolveInside : List Char → Bool) (target : List Char) : Bool :=
  if pyStrip target = chars "/dev/null" || pyStrip target = chars "NUL" ||
      pyStrip target = chars "nul" then true
  else resolveInside target

/-- Block reason of the foreground gate. -/
def fgReason (pat : String) : List Char :=
  chars "BLOCKED: Foreground/interactive process detected (" ++ chars pat ++
    chars "). Rewrite as a one-shot command or background with timeout."

/-- Block reason of the sudo allowlist gate. -/
def sudoReason (base : List Char) : List Char :=
  chars "BLOCKED: sudo " ++ base ++
    chars " is not on the allowed list. Allowed sudo commands: " ++
    sudoAllowlistJoined

/-- Block reason of the sudo write-target gate. -/
def sudoWriteReason (t : List Char) : List Char :=
  chars "BLOCKED: sudo command writes outside workspace: " ++ t

/-- Block reason of the non-sudo write-path gate. -/
def writeReason (wsName t : List Char) : List Char :=
  chars "BLOCKED: Command writes outside workspace: " ++ t ++
    chars ". All file modifications must target paths within " ++ wsName

/-- sandbox_check: the three gates in source order. resolveInside is the
path-resolution oracle, wsName the display form of the workspace path. -/
def sandboxCheck (resolveInside : List Char → Bool) (wsName : List Char)
    (cmd : List Char) : Option (List Char) :=
  let stripped := pyStrip cmd
  match fgSearch stripped with
  | some pat => some (fgReason pat)
  | none =>
    match sudoSub stripped with
    | some sub =>
      let base := basenameChars sub
      if SUDO_ALLOWLIST.contains base then
        let inner := dropBeforeFirst stripped base
        let targets := resolveWriteTargets inner
        match targets.find? (fun t => !insideWs resolveInside t) with
        | some t => if sudoOpsPresent inner then some (sudoWriteReason t) else none
        | none => none
      else some (sudoReason base)
    | none =>
      if wiSearch stripped then
        match (resolveWriteTargets stripped).find?
            (fun t => !insideWs resolveInside t) with
        | some t => some (writeReason wsName t)
        | none => none
      else none

/-- Result record of execute_command. -/
structure CmdResult where
  stdout : List Char
  stderr : List Char
  returncode : Int
  timedOut : Bool
deriving DecidableEq

/-- Behaviour of the spawned subprocess, abstracted: it completes with
captured streams and a return code, exceeds the timeout, or the spawn
itself raises (modelling the generic exception arm). -/
inductive RunOutcome where
  | completed (out err : List Char) (rc : Int)
  | timedOutEx
  | spawnFail (msg : List Char)

/-- Install markers selecting the long timeout. -/
def timeoutFor (cmd : List Char) : Nat :=
  if containsSub (chars "apt install") cmd ||
      containsSub (chars "pip install") cmd ||
      containsSub (chars "npm install") cmd ||
      containsSub (chars "cargo build") cmd then 300 else 30

/-- execute_command: sandbox first (synthetic result on block, subprocess
untouched), then run with the selected timeout, truncating both captured
streams to 8000 characters; timeout and spawn failure arms as in source. -/
def executeCommand (resolveInside : List Char → Bool) (wsName : List Char)
    (runner : List Char → Nat → RunOutcome) (cmd : List Char) : CmdResult :=
  match sandboxCheck resolveInside wsName cmd with
  | some reason => ⟨[], reason, -1, false⟩
  | none =>
    let t := timeoutFor cmd
    match runner cmd t with
    | .completed o e rc => ⟨o.take 8000, e.take 8000, rc, false⟩
    | .timedOutEx =>
      ⟨[], chars "Command timed out after " ++ natToChars t ++ chars "s", -1, true⟩
    | .spawnFail m => ⟨[], m, -1, false⟩

/-! ## call_model: transport retry behaviour of the two variants -/

/-- Outcome of one HTTP attempt. -/
inductive AttemptOutcome where
  | success (content : List Char)
  | connectionError
  | timeoutError
  | otherError

/-- Final fate of a call_model invocation. -/
inductive CallResult where
  | ok (content : List Char)
  | fatalTransport
  | fatalOther
deriving DecidableEq

/-- The attempt raised a connection or timeout transport fault. -/
def isTransport : AttemptOutcome → Prop
  | .connectionError => True
  | .timeoutError => True
  | _ => False

/-- Boolean form of the transport test (the except clause
(ConnectionError, Timeout) of the isomira variant). -/
def isTransportB : AttemptOutcome → Bool
  | .connectionError => true
  | .timeoutError => true
  | _ => false

/-- isomira call_model: for attempt in range(4), retrying transport faults
with sleeps [2, 8, 32][attempt] and aborting on the fourth consecutive
failure (loop unrolled; the oracle gives the outcome of each attempt).
Returns the performed sleep delays and the final fate. -/
def callModelIsomira (oracle : Nat → AttemptOutcome) : List Nat × CallResult :=
  match oracle 0 with
  | .success c => ([], .ok c)
  | .otherError => ([], .fatalOther)
  | _ =>
    match oracle 1 with
    | .success c => ([2], .ok c)
    | .otherError => ([2], .fatalOther)
    | _ =>
      match oracle 2 with
      | .success c => ([2, 8], .ok c)
      | .otherError => ([2, 8], .fatalOther)
      | _ =>
        match oracle 3 with
        | .success c => ([2, 8, 32], .ok c)
        | .otherError => ([2, 8, 32], .fatalOther)
        | _ => ([2, 8, 32], .fatalTransport)

/-- isomoira call_model: a single attempt; ConnectionError is fatal at
once (Cannot connect ...), any other exception, including a timeout, is
fatal at once (Model call failed ...). No retry, no sleeps. -/
def callModelIsomoira (oracle : Nat → AttemptOutcome) : List Nat × CallResult :=
  match oracle 0 with
  | .success c => ([], .ok c)
  | .connectionError => ([], .fatalTransport)
  | _ => ([], .fatalOther)

/-! ## DK amendment (run loop, DK-ping branch)

Model of the accepted-amendment path of the DK ping: the consultant
addition is stripped and truncated to 500 characters, inserted at the end
of the Domain Knowledge section (or a new section is appended), and the
proposal is rejected when it exceeds the cap computed from the

pre-amendment task size. The confidence gate that precedes this code is
not part of the amendment itself. -/

/-- The stripped, 500-character-truncated form of a DK addition. -/
def dkAddNorm (rawAdd : List Char) : List Char :=
  let a := pyStrip rawAdd
  if a.length > 500 then a.take 500 else a

/-- The tagged line inserted by an amendment:
[Auto-DK iteration N] addition newline. -/
def dkTagLine (iteration : Nat) (rawAdd : List Char) : List Char :=
  chars "[Auto-DK iteration " ++ natToChars iteration ++ chars "] " ++
    dkAddNorm rawAdd ++ chars "\n"

/-- re.search r"(## Domain Knowledge\s*\n)": end position of the first
match (the greedy whitespace run ends at its last newline). -/
def findDKGo : List Char → Nat → Option Nat
  | [], _ => none
  | s@(_ :: t), i =>
    if startsWithChars (chars "## Domain Knowledge") s then
      match lastNlIdx ((s.drop 19).takeWhile isPySpace) with
      | some j => some (i + 19 + j + 1)
      | none => findDKGo t (i + 1)
    else findDKGo t (i + 1)

/-- End position of the Domain Knowledge header match, if any. -/
def findDKInsert (task : List Char) : Option Nat := findDKGo task 0

/-- End of the Domain Knowledge section body: position of the next
section header after the insert position, else the end of the task. -/
def dkSectionEnd (task : List Char) (ipos : Nat) : Nat :=
  match strFind (chars "\n## ") (task.drop ipos) with
  | some off => ipos + off
  | none => task.length

/-- The proposed amended task: tagged line inserted at the end of the
Domain Knowledge section (after stripping trailing whitespace there), or
a whole new section appended when no header is found. -/
def dkPropose (task : List Char) (iteration : Nat) (rawAdd : List Char) :
    List Char :=
  match findDKInsert task with
  | some ipos =>
    pyRstrip (task.take (dkSectionEnd task ipos)) ++ chars "\n\n" ++
      dkTagLine iteration rawAdd ++ task.drop (dkSectionEnd task ipos)
  | none =>
    task ++ chars "\n\n## Domain Knowledge\n\n" ++ dkTagLine iteration rawAdd

/-- One accepted-or-rejected DK amendment: some proposed task on
acceptance, none when the size cap (pre-amendment length + 2000) would be
exceeded and the run halts. -/
def dkAmend (task : List Char) (iteration : Nat) (rawAdd : List Char) :
    Option (List Char) :=
  if (dkPropose task iteration rawAdd).length > task.length + 2000 then none
  else some (dkPropose task iteration rawAdd)

/-- A sequence of amendments, each of which must be accepted. -/
def amendChain : List Char → List (Nat × List Char) → Option (List Char)
  | t, [] => some t
  | t, (it, ad) :: rest =>
    match dkAmend t it ad with
    | some t2 => amendChain t2 rest
    | none => none

/-! ## parse_file_blocks

finditer of r"===FILE:\s*(.+?)===\s*\n([\s\S]*?)===END FILE===":
after the literal header, a greedy whitespace run (longest-first
backtracking), a lazy one-or-more path group of non-newline characters,
the literal ===, a greedy whitespace run that must end in a newline
(committing to its last newline; earlier newlines give the same body
because the terminator starts with a non-whitespace character), then the
lazy body up to the first terminator occurrence. The path group is
stripped as in the source. -/

/-- The block terminator literal. -/
def endFileTok : List Char := chars "===END FILE==="

/-- Split at the first occurrence of needle: the part before it and the
part after it. -/
def splitAtFirstOcc (needle : List Char) : List Char → Option (List Char × List Char)
  | [] => if startsWithChars needle [] then some ([], []) else none
  | s@(x :: t) =>
    if startsWithChars needle s then some ([], s.drop needle.length)
    else (splitAtFirstOcc needle t).map (fun r => (x :: r.1, r.2))

/-- Greedy \s*\n: consume through the last newline of the maximal
whitespace run, failing when the run has no newline. -/
def greedyWsNl (s : List Char) : Option (List Char) :=
  match lastNlIdx (s.takeWhile isPySpace) with
  | some i => some (s.drop (i + 1))
  | none => none

/-- After a candidate path group: ===, then \s*\n, then the lazy body up
to the first terminator; returns body and remainder. -/
def tryTail (t : List Char) : Option (List Char × List Char) :=
  if startsWithChars (chars "===") t then
    match greedyWsNl (t.drop 3) with
    | some u => splitAtFirstOcc endFileTok u
    | none => none
  else none

/-- Lazy (.+?) search for the path group: grow one character at a time
(no newlines) until the rest of the pattern matches. -/
def lazyPathGo (acc : List Char) : List Char → Option (List Char × List Char × List Char)
  | [] => none
  | c :: rest =>
    if c = '\n' then none
    else
      match tryTail rest with
      | some (body, after) => some (acc ++ [c], body, after)
      | none => lazyPathGo (acc ++ [c]) rest

/-- Backtracking over the greedy leading \s* (longest first). -/
def wsBack (s1 : List Char) : Nat → Option (List Char × List Char × List Char)
  | 0 =>
    match lazyPathGo [] s1 with
    | some r => some r
    | none => none
  | j + 1 =>
    match lazyPathGo [] (s1.drop (j + 1)) with
    | some r => some r
    | none => wsBack s1 j

/-- Attempt a full match at the current position; on success returns the
raw path group, the body and the remainder after the terminator. -/
def matchAt (s : List Char) : Option (List Char × List Char × List Char) :=
  if startsWithChars (chars "===FILE:") s then
    let s1 := s.drop 8
    wsBack s1 ((s1.takeWhile isPySpace).length)
  else none

/-- finditer scan: leftmost match, resume after each match (fuel bounded
by the string length; every step consumes at least one character). -/
def scanBlocksGo : Nat → List Char → List (List Char × List Char)
  | 0, _ => []
  | _ + 1, [] => []
  | fuel + 1, s@(_ :: t) =>
    match matchAt s with
    | some (p, body, after) => (pyStrip p, body) :: scanBlocksGo fuel after
    | none => scanBlocksGo fuel t

/-- parse_file_blocks: list of (path, content) in source order. -/
def parseFileBlocks (s : List Char) : List (List Char × List Char) :=
  scanBlocksGo s.length s

/-- The generator grammar of one block:
===FILE: path=== newline content ===END FILE===. -/
def renderBlock (p c : List Char) : List Char :=
  chars "===FILE: " ++ p ++ chars "===" ++ ['\n'] ++ c ++ endFileTok

/-- Concatenated rendering of a block list. -/
def renderBlocks : List (List Char × List Char) → List Char
  | [] => []
  | (p, c) :: rest => renderBlock p c ++ renderBlocks rest

/-! ## normalize_plan

Plan entries are JSON-like values; dictionaries are association lists in
insertion order with Python dict assignment semantics (update in place,
append when absent) and pop. The AttributeError raised when a
pre-existing non-string file value reaches f.startswith is modelled by
the error arm, which aborts the whole normalisation as in Python. -/

/-- JSON-like value of a parsed plan. -/
inductive JVal where
  | jstr (s : List Char)
  | jlist (xs : List JVal)
  | jdict (entries : List (String × JVal))
  | jother

/-- Dict lookup (keys unique, insertion order). -/
def dget : List (String × JVal) → String → Option JVal
  | [], _ => none
  | (k, v) :: t, key => if k = key then some v else dget t key

/-- Python dict assignment: update in place, else append. -/
def dset : List (String × JVal) → String → JVal → List (String × JVal)
  | [], key, v => [(key, v)]
  | (k, w) :: t, key, v =>
    if k = key then (k, v) :: t else (k, w) :: dset t key v

/-- Python dict pop of a present key. -/
def dpop : List (String × JVal) → String → List (String × JVal)
  | [], _ => []
  | (k, w) :: t, key => if k = key then t else (k, w) :: dpop t key

/-- Key-presence test. -/
def hasKeyD (d : List (String × JVal)) (k : String) : Bool := (dget d k).isSome

/-- Key-presence on a value (false for non-dicts). -/
def hasKeyJ : JVal → String → Bool
  | .jdict d, k => hasKeyD d k
  | _, _ => false

/-- FILE_KEYS probe order. -/
def FILE_KEYS : List String :=
  ["file", "filename", "filepath", "path", "file_path", "target", "source",
   "module", "target_file", "source_file"]

/-- ACTION_KEYS probe order. -/
def ACTION_KEYS : List String := ["action", "operation", "type", "mode"]

/-- Characters of the class of PY_FILE_RE: word, slash, backslash, dot,
dash. -/
def isPyClassChar (c : Char) : Bool :=
  isWordChar c || c = '/' || c = '\\' || c = '.' || c = '-'

/-- Backtracking for PY_FILE_RE at one position: greedy class-run length
for the one-or-more part, longest first, then the literal .py and a word
boundary. -/
def pyTryLen (s : List Char) : Nat → Option (List Char)
  | 0 => none
  | ell + 1 =>
    let rest := s.drop (ell + 1)
    if startsWithChars (chars ".py") rest &&
        wordBoundary (some 'y') ((rest.drop 3).head?) then
      some (s.take (ell + 1 + 3))
    else pyTryLen s ell

/-- PY_FILE_RE.search: r"[\w/\\.\-]+\.py\b", leftmost match. -/
def pyFileSearch : List Char → Option (List Char)
  | [] => none
  | s@(_ :: t) =>
    match pyTryLen s ((s.takeWhile isPyClassChar).length) with
    | some m => some m
    | none => pyFileSearch t

/-- First FILE_KEYS key holding a string value containing a dot. -/
def findFileKey (d : List (String × JVal)) : List String → Option (String × List Char)
  | [] => none
  | k :: ks =>
    match dget d k with
    | some (.jstr v) =>
      if v.contains '.' then some (k, v) else findFileKey d ks
    | _ => findFileKey d ks

/-- First string value (in insertion order) containing a .py path. -/
def findPyInValues : List (String × JVal) → Option (List Char)
  | [] => none
  | (_, .jstr v) :: t =>
    match pyFileSearch v with
    | some m => some m
    | none => findPyInValues t
  | _ :: t => findPyInValues t

/-- First ACTION_KEYS key present in the dict (with its value). -/
def findActionKey (d : List (String × JVal)) : List String → Option (String × JVal)
  | [] => none
  | k :: ks =>
    match dget d k with
    | some v => some (k, v)
    | none => findActionKey d ks

/-- The prefix-strip loop over ("workspace/", "workspace\\", "./", ".\\"):
each prefix is tested once, in order, against the current value (the loop
has no break). -/
def stripDirs (f : List Char) : List Char :=
  let f1 := if startsWithChars (chars "workspace/") f then f.drop 10 else f
  let f2 := if startsWithChars (chars "workspace\\") f1 then f1.drop 10 else f1
  let f3 := if startsWithChars (chars "./") f2 then f2.drop 2 else f2
  if startsWithChars (chars ".\\") f3 then f3.drop 2 else f3

/-- Ensure the functions list exists. -/
def npFunctionsStep (d : List (String × JVal)) : List (String × JVal) :=
  if hasKeyD d "functions" then d else dset d "functions" (.jlist [])

/-- Final steps shared by all entries: ensure the functions list, keep
the entry only when a file key is present. -/
def finishEntry (d : List (String × JVal)) : Option JVal :=
  if hasKeyD (npFunctionsStep d) "file" then some (.jdict (npFunctionsStep d))
  else none

/-- Canonicalise the file key from FILE_KEYS (pop and re-insert). -/
def npFileKeyStep (d : List (String × JVal)) : List (String × JVal) :=
  if hasKeyD d "file" then d
  else
    match findFileKey d FILE_KEYS with
    | some (k, v) => dset (dpop d k) "file" (.jstr v)
    | none => d

/-- Last-resort scan of all string values for a .py path. -/
def npScanStep (d : List (String × JVal)) : List (String × JVal) :=
  if hasKeyD d "file" then d
  else
    match findPyInValues d with
    | some m => dset d "file" (.jstr m)
    | none => d

/-- Fallback-file step. -/
def npFallbackStep (fb : List Char) (d : List (String × JVal)) :
    List (String × JVal) :=
  if hasKeyD d "file" then d
  else if !(fb = []) then dset d "file" (.jstr fb) else d

/-- Canonicalise the action key from ACTION_KEYS, defaulting to modify. -/
def npActionStep (d : List (String × JVal)) : List (String × JVal) :=
  if hasKeyD d "action" then d
  else
    match findActionKey d ACTION_KEYS with
    | some (k, v) => dset (dpop d k) "action" v
    | none => dset d "action" (.jstr (chars "modify"))

/-- Normalisation of one dict entry; .error models the AttributeError on
a non-string pre-existing file value. -/
def processDict (fb : List Char) (d : List (String × JVal)) :
    Except Unit (Option JVal) :=
  let d4 := npActionStep (npFallbackStep fb (npScanStep (npFileKeyStep d)))
  match dget d4 "file" with
  | some (.jstr f) => .ok (finishEntry (dset d4 "file" (.jstr (stripDirs f))))
  | some _ => .error ()
  | none => .ok (finishEntry d4)

/-- Normalisation of one raw entry: dicts are processed, strings holding
a .py path are wrapped, everything else is skipped. -/
def processEntry (fb : List Char) : JVal → Except Unit (Option JVal)
  | .jdict d => processDict fb d
  | .jstr s =>
    match pyFileSearch s with
    | some m => processDict fb [("file", .jstr m)]
    | none => .ok none
  | _ => .ok none

/-- normalize_plan over the entry list; none when the AttributeError
aborts it. -/
def normalizePlan (plan : List JVal) (fb : List Char) : Option (List JVal) :=
  match plan with
  | [] => some []
  | e :: rest =>
    match processEntry fb e with
    | .error _ => none
    | .ok none => normalizePlan rest fb
    | .ok (some v) => (normalizePlan rest fb).map (fun l => v :: l)

/-! ## Theorems -/

/-- C8: sandbox_check returns None (no block) for each of the five
commands echo hi, python script.py, cat file, ls, and echo x > /dev/null,
for every workspace (every path-resolution oracle and display name): the
first four match no foreground pattern, are not sudo and contain no write
indicator, and the fifth's only extracted target is /dev/null, which is
always permitted. -/
theorem sandbox_allows_benign_commands
    (resolveInside : List Char → Bool) (wsName : List Char) :
    sandboxCheck resolveInside wsName (chars "echo hi") = none ∧
    sandboxCheck resolveInside wsName (chars "python script.py") = none ∧
    sandboxCheck resolveInside wsName (chars "cat file") = none ∧
    sandboxCheck resolveInside wsName (chars "ls") = none ∧
    sandboxCheck resolveInside wsName (chars "echo x > /dev/null") = none :=
  ⟨rfl, rfl, rfl, rfl, rfl⟩

/-- C5: on a sandbox block, execute_command returns returncode -1,
timed_out false, empty stdout and the block reason as stderr, for every
subprocess behaviour (the runner is never consulted). -/
theorem blocked_command_synthetic_result
    (resolveInside : List Char → Bool) (wsName : List Char)
    (runner : List Char → Nat → RunOutcome) (cmd reason : List Char)
    (h : sandboxCheck resolveInside wsName cmd = some reason) :
    executeCommand resolveInside wsName runner cmd =
      ⟨[], reason, -1, false⟩ := by
  unfold executeCommand
  rw [h]

/-- Witness for C5 at the blocked command vim. -/
theorem blocked_command_synthetic_result_witness :
    executeCommand (fun _ => true) (chars "/ws")
        (fun _ _ => .completed [] [] 0) (chars "vim") =
      ⟨[], fgReason "\\bvim\\b", -1, false⟩ :=
  blocked_command_synthetic_result (fun _ => true) (chars "/ws")
    (fun _ _ => .completed [] [] 0) (chars "vim") (fgReason "\\bvim\\b") rfl

/-- C9: execute_command is a total function of the sandbox verdict and
the subprocess outcome: a block or a spawn failure yields returncode -1
with timed_out false, and a timeout of the selected timeout yields
returncode -1 with timed_out true. -/
theorem execute_command_classifies_failures
    (resolveInside : List Char → Bool) (wsName : List Char)
    (runner : List Char → Nat → RunOutcome) (cmd : List Char) :
    (∀ reason, sandboxCheck resolveInside wsName cmd = some reason →
      (executeCommand resolveInside wsName runner cmd).returncode = -1 ∧
        (executeCommand resolveInside wsName runner cmd).timedOut = false) ∧
    (sandboxCheck resolveInside wsName cmd = none →
      ∀ m, runner cmd (timeoutFor cmd) = .spawnFail m →
      (executeCommand resolveInside wsName runner cmd).returncode = -1 ∧
        (executeCommand resolveInside wsName runner cmd).timedOut = false) ∧
    (sandboxCheck resolveInside wsName cmd = none →
      runner cmd (timeoutFor cmd) = .timedOutEx →
      (executeCommand resolveInside wsName runner cmd).returncode = -1 ∧
        (executeCommand resolveInside wsName runner cmd).timedOut = true) := by
  refine ⟨fun reason h => ?_, fun h m hr => ?_, fun h hr => ?_⟩
  · simp [executeCommand, h]
  · simp [executeCommand, h, hr]
  · simp [executeCommand, h, hr]

/-- Witness for C9 at a timing-out ls. -/
theorem execute_command_classifies_failures_witness :
    (executeCommand (fun _ => true) [] (fun _ _ => .timedOutEx)
        (chars "ls")).returncode = -1 ∧
    (executeCommand (fun _ => true) [] (fun _ _ => .timedOutEx)
        (chars "ls")).timedOut = true :=
  (execute_command_classifies_failures (fun _ => true) []
    (fun _ _ => .timedOutEx) (chars "ls")).2.2 rfl rfl

/-- C6 (amended): in the isomira variant, transport faults are retried
with sleeps of 2, 8 and 32 seconds before the first, second and third
retry, and the call aborts as a transport fatal exactly when four
consecutive attempts all fail with transport faults. -/
theorem call_model_retry_schedule (oracle : Nat → AttemptOutcome) :
    (isTransport (oracle 0) → isTransport (oracle 1) → isTransport (oracle 2) →
      isTransport (oracle 3) →
      callModelIsomira oracle = ([2, 8, 32], .fatalTransport)) ∧
    (∀ c, oracle 0 = .success c → callModelIsomira oracle = ([], .ok c)) ∧
    (∀ c, isTransport (oracle 0) → oracle 1 = .success c →
      callModelIsomira oracle = ([2], .ok c)) ∧
    (∀ c, isTransport (oracle 0) → isTransport (oracle 1) →
      oracle 2 = .success c → callModelIsomira oracle = ([2, 8], .ok c)) ∧
    (∀ c, isTransport (oracle 0) → isTransport (oracle 1) →
      isTransport (oracle 2) → oracle 3 = .success c →
      callModelIsomira oracle = ([2, 8, 32], .ok c)) := by
  unfold callModelIsomira
  cases h0 : oracle 0 <;> cases h1 : oracle 1 <;> cases h2 : oracle 2 <;>
    cases h3 : oracle 3 <;>
    simp only [isTransport, h0, h1, h2, h3] <;>
    refine ⟨?_, ?_, ?_, ?_, ?_⟩ <;>
    intros <;> simp_all

/-- Witness for C6 at an all-transport-fault oracle. -/
theorem call_model_retry_schedule_witness :
    callModelIsomira (fun _ => .connectionError) = ([2, 8, 32], .fatalTransport) :=
  (call_model_retry_schedule (fun _ => .connectionError)).1
    trivial trivial trivial trivial

/-- C6 counterexample: in the isomoira variant a connection fault on the
first attempt aborts the call at once, with no retry and no sleeps. -/
theorem call_model_isomoira_no_retry :
    callModelIsomoira (fun _ => .connectionError) = ([], .fatalTransport) ∧
    ([] : List Nat) ≠ [2] := ⟨rfl, by decide⟩

/-- C2 (amended): every accepted DK amendment is bounded by the cap
computed from the pre-amendment task: the post length is at most the pre
length plus 2000. -/
theorem dk_amendment_cap_per_step (task : List Char) (iteration : Nat)
    (rawAdd t2 : List Char) (h : dkAmend task iteration rawAdd = some t2) :
    t2.length ≤ task.length + 2000 := by
  unfold dkAmend at h
  split at h
  · exact absurd h (by simp)
  · next hgt =>
    injection h with h
    subst h
    omega

/-- Witness for C2 at a one-character amendment. -/
theorem dk_amendment_cap_per_step_witness :
    (chars "## Domain Knowledge\n\n[Auto-DK iteration 1] x\n").length ≤
      (chars "## Domain Knowledge\n").length + 2000 :=
  dk_amendment_cap_per_step (chars "## Domain Knowledge\n") 1 (chars "x")
    (chars "## Domain Knowledge\n\n[Auto-DK iteration 1] x\n") (by decide)
/-! Auxiliary definitions and lemmas for the C2 counterexample. The
four-amendment chain is evaluated with every scan confined to a short
concrete prefix: each 500-character addition starts with its own section
marker, so the next-section search succeeds early and the long symbolic
filler is never traversed; the cap test is discharged by length lemmas
rather than by reduction. -/

/-- Filler part of the 500-character addition. -/
def dkFiller : List Char := List.replicate 494 'a'

/-- A 500-character addition whose second line looks like a section
header. -/
def dkA : List Char := chars "x\n## y" ++ dkFiller

/-- The initial task of the chain. -/
def dkT0 : List Char := chars "## Domain Knowledge\n"

/-- Concrete prefix of the task after k accepted amendments. -/
def dkP : Nat → List Char
  | 1 => chars "## Domain Knowledge\n\n[Auto-DK iteration 1] x"
  | 2 => chars "## Domain Knowledge\n\n[Auto-DK iteration 1] x\n\n[Auto-DK iteration 2] x"
  | 3 => chars "## Domain Knowledge\n\n[Auto-DK iteration 1] x\n\n[Auto-DK iteration 2] x\n\n[Auto-DK iteration 3] x"
  | _ => chars "## Domain Knowledge\n\n[Auto-DK iteration 1] x\n\n[Auto-DK iteration 2] x\n\n[Auto-DK iteration 3] x\n\n[Auto-DK iteration 4] x"

/-- Symbolic suffix of the task after k accepted amendments. -/
def dkS : Nat → List Char
  | 0 => []
  | k + 1 => chars "\n## y" ++ dkFiller ++ chars "\n" ++ dkS k

/-- The task after k accepted amendments (k = 1..4). -/
def dkT (k : Nat) : List Char := dkP k ++ dkS k

/-- Length of the symbolic suffix. -/
theorem dkS_succ_length (k : Nat) :
    (dkS (k + 1)).length = 500 + (dkS k).length := by
  simp only [dkS, dkFiller, List.length_append, List.length_replicate]
  have h5 : (chars "\n## y").length = 5 := by decide
  have h1 : (chars "\n").length = 1 := by decide
  omega

/-- Lengths of the four chain tasks. -/
theorem dkT_lengths :
    (dkT 1).length = 544 ∧ (dkT 2).length = 1069 ∧
    (dkT 3).length = 1594 ∧ (dkT 4).length = 2119 := by
  have h0 : (dkS 0).length = 0 := by decide
  have h1 : (dkS 1).length = 500 + (dkS 0).length := dkS_succ_length 0
  have h2 : (dkS 2).length = 500 + (dkS 1).length := dkS_succ_length 1
  have h3 : (dkS 3).length = 500 + (dkS 2).length := dkS_succ_length 2
  have h4 : (dkS 4).length = 500 + (dkS 3).length := dkS_succ_length 3
  have p1 : (dkP 1).length = 44 := by decide
  have p2 : (dkP 2).length = 69 := by decide
  have p3 : (dkP 3).length = 94 := by decide
  have p4 : (dkP 4).length = 119 := by decide
  refine ⟨?_, ?_, ?_, ?_⟩ <;>
    simp only [dkT, List.length_append, p1, p2, p3, p4] <;> omega

set_option maxRecDepth 4000 in
/-- The four proposals of the chain, evaluated by reduction (each scan
stays inside the concrete prefix). -/
theorem dk_chain_proposals :
    dkPropose dkT0 1 dkA = dkT 1 ∧ dkPropose (dkT 1) 2 dkA = dkT 2 ∧
    dkPropose (dkT 2) 3 dkA = dkT 3 ∧ dkPropose (dkT 3) 4 dkA = dkT 4 :=
  ⟨rfl, rfl, rfl, rfl⟩

/-- Each of the four amendments is accepted. -/
theorem dk_chain_steps :
    dkAmend dkT0 1 dkA = some (dkT 1) ∧
    dkAmend (dkT 1) 2 dkA = some (dkT 2) ∧
    dkAmend (dkT 2) 3 dkA = some (dkT 3) ∧
    dkAmend (dkT 3) 4 dkA = some (dkT 4) := by
  obtain ⟨l1, l2, l3, l4⟩ := dkT_lengths
  obtain ⟨q1, q2, q3, q4⟩ := dk_chain_proposals
  have h0 : dkT0.length = 20 := by decide
  refine ⟨?_, ?_, ?_, ?_⟩ <;> unfold dkAmend
  · rw [q1, if_neg (by omega)]
  · rw [q2, if_neg (by omega)]
  · rw [q3, if_neg (by omega)]
  · rw [q4, if_neg (by omega)]

/-- C2 counterexample: four accepted amendments of 500 characters each
grow the 20-character task ## Domain Knowledge to 2119 characters, above
original_task_size + 2000 = 2020: the run never records the task size at
start, and each DK ping recomputes the cap from the current task. -/
theorem dk_cap_not_global_counterexample :
    amendChain dkT0 [(1, dkA), (2, dkA), (3, dkA), (4, dkA)] = some (dkT 4) ∧
    (dkT 4).length > dkT0.length + 2000 := by
  obtain ⟨s1, s2, s3, s4⟩ := dk_chain_steps
  constructor
  · simp only [amendChain, s1, s2, s3, s4]
  · obtain ⟨-, -, -, l4⟩ := dkT_lengths
    have h0 : dkT0.length = 20 := by decide
    omega


/-- C3 (amended): an accepted amendment splits the pre-amendment task as
P ++ S at the end of its Domain Knowledge section and produces
rstrip(P) ++ two newlines ++ the tagged addition line ++ S (so only
trailing whitespace at the insertion point can be removed, and the
suffix survives verbatim); when no Domain Knowledge header exists, a new
section is appended after the unchanged task. -/
theorem dk_amendment_insertion_shape (task : List Char) (iteration : Nat)
    (rawAdd t2 : List Char) (h : dkAmend task iteration rawAdd = some t2) :
    (∃ P S, task = P ++ S ∧
      t2 = pyRstrip P ++ chars "\n\n" ++ dkTagLine iteration rawAdd ++ S) ∨
    t2 = task ++ chars "\n\n## Domain Knowledge\n\n" ++
      dkTagLine iteration rawAdd := by
  unfold dkAmend at h
  split at h
  · exact absurd h (by simp)
  · injection h with h
    unfold dkPropose at h
    cases hf : findDKInsert task with
    | some ipos =>
      rw [hf] at h
      exact Or.inl ⟨task.take (dkSectionEnd task ipos),
        task.drop (dkSectionEnd task ipos),
        (List.take_append_drop _ _).symm, h.symm⟩
    | none =>
      rw [hf] at h
      exact Or.inr h.symm

/-- Witness for C3 at a task without a Domain Knowledge section. -/
theorem dk_amendment_insertion_shape_witness :
    (∃ P S, chars "hello" = P ++ S ∧
      chars "hello\n\n## Domain Knowledge\n\n[Auto-DK iteration 1] x\n" =
        pyRstrip P ++ chars "\n\n" ++ dkTagLine 1 (chars "x") ++ S) ∨
    chars "hello\n\n## Domain Knowledge\n\n[Auto-DK iteration 1] x\n" =
      chars "hello" ++ chars "\n\n## Domain Knowledge\n\n" ++
        dkTagLine 1 (chars "x") :=
  dk_amendment_insertion_shape (chars "hello") 1 (chars "x")
    (chars "hello\n\n## Domain Knowledge\n\n[Auto-DK iteration 1] x\n") (by decide)

/-- C3 counterexample: with a Constraints section after Domain Knowledge,
the tagged line is inserted in the middle, so the pre-amendment task is
not a substring of the accepted post-amendment task. -/
theorem dk_amendment_not_substring_counterexample :
    dkAmend (chars "## Domain Knowledge\nA\n## Constraints\nB") 6
        (chars "Values must be clamped.") =
      some (chars "## Domain Knowledge\nA\n\n[Auto-DK iteration 6] Values must be clamped.\n\n## Constraints\nB") ∧
    containsSub (chars "## Domain Knowledge\nA\n## Constraints\nB")
      (chars "## Domain Knowledge\nA\n\n[Auto-DK iteration 6] Values must be clamped.\n\n## Constraints\nB") = false := by
  constructor
  · rfl
  · decide

/-! ## Dict lemmas and the normalize_plan claims -/

/-- Reading back the key just assigned. -/
theorem dget_dset_self (d : List (String × JVal)) (k : String) (v : JVal) :
    dget (dset d k v) k = some v := by
  induction d with
  | nil => simp [dset, dget]
  | cons p t ih =>
    by_cases h : p.1 = k
    · simp [dset, dget, h]
    · simp [dset, dget, h, ih]

/-- Assignment to another key preserves a lookup. -/
theorem dget_dset_ne (d : List (String × JVal)) (k k2 : String) (v : JVal)
    (h : k2 ≠ k) : dget (dset d k2 v) k = dget d k := by
  induction d with
  | nil => simp [dset, dget, h]
  | cons p t ih =>
    by_cases hp : p.1 = k2
    · simp [dset, dget, hp, h]
    · simp only [dset, hp, if_false]
      by_cases hk : p.1 = k
      · simp [dget, hk]
      · simp [dget, hk, ih]

/-- The action-canonicalisation step always leaves an action key. -/
theorem npActionStep_hasAction (d : List (String × JVal)) :
    hasKeyD (npActionStep d) "action" = true := by
  unfold npActionStep
  by_cases h : hasKeyD d "action" = true
  · simp [h]
  · rw [if_neg (by simp [h])]
    cases hf : findActionKey d ACTION_KEYS with
    | some kv => simp [hasKeyD, dget_dset_self]
    | none => simp [hasKeyD, dget_dset_self]

/-- finishEntry keeps the file and action keys it was given. -/
theorem finishEntry_keys (d : List (String × JVal)) (v : JVal)
    (ha : hasKeyD d "action" = true) (h : finishEntry d = some v) :
    hasKeyJ v "file" = true ∧ hasKeyJ v "action" = true := by
  unfold finishEntry at h
  have ha6 : hasKeyD (npFunctionsStep d) "action" = true := by
    unfold npFunctionsStep
    by_cases hf : hasKeyD d "functions" = true
    · simpa [hf] using ha
    · rw [if_neg hf, hasKeyD, dget_dset_ne _ _ _ _ (by decide)]
      exact ha
  split at h
  · next hfile =>
    injection h with h
    subst h
    exact ⟨hfile, ha6⟩
  · exact absurd h (by simp)

/-- Every entry kept by processDict has file and action keys. -/
theorem processDict_keys (fb : List Char) (d : List (String × JVal))
    (v : JVal) (h : processDict fb d = .ok (some v)) :
    hasKeyJ v "file" = true ∧ hasKeyJ v "action" = true := by
  simp only [processDict] at h
  split at h
  · next f heq =>
    injection h with h
    refine finishEntry_keys _ _ ?_ h
    rw [hasKeyD, dget_dset_ne _ _ _ _ (by decide)]
    exact npActionStep_hasAction _
  · exact absurd h (by simp)
  · next heq =>
    injection h with h
    exact finishEntry_keys _ _ (npActionStep_hasAction _) h

/-- Every entry kept by processEntry has file and action keys. -/
theorem processEntry_keys (fb : List Char) (e : JVal) (v : JVal)
    (h : processEntry fb e = .ok (some v)) :
    hasKeyJ v "file" = true ∧ hasKeyJ v "action" = true := by
  unfold processEntry at h
  split at h
  · exact processDict_keys fb _ v h
  · split at h
    · exact processDict_keys fb _ v h
    · exact absurd h (by simp)
  · exact absurd h (by simp)

/-- C4 (amended): every entry in a successful normalize_plan result
carries a file key and an action key (the action defaulting to modify
when absent); the file value may nevertheless be empty and the action
value is passed through unvalidated. -/
theorem normalize_plan_entry_keys (plan : List JVal) (fb : List Char)
    (out : List JVal) (h : normalizePlan plan fb = some out) :
    ∀ e ∈ out, hasKeyJ e "file" = true ∧ hasKeyJ e "action" = true := by
  induction plan generalizing out with
  | nil =>
    unfold normalizePlan at h
    injection h with h
    subst h
    intro e he
    exact absurd he (by simp)
  | cons x rest ih =>
    unfold normalizePlan at h
    split at h
    · exact absurd h (by simp)
    · exact ih out h
    · next v hv =>
      cases hrest : normalizePlan rest fb with
      | none => rw [hrest] at h; exact absurd h (by simp)
      | some outRest =>
        rw [hrest] at h
        injection h with h
        subst h
        intro e he
        rcases List.mem_cons.mp he with he | he
        · subst he
          exact processEntry_keys fb x e hv
        · exact ih outRest hrest e he

/-- Witness for C4 at a one-entry plan naming a.py. -/
theorem normalize_plan_entry_keys_witness :
    hasKeyJ (.jdict [("file", .jstr (chars "a.py")),
      ("action", .jstr (chars "modify")), ("functions", .jlist [])])
      "file" = true ∧
    hasKeyJ (.jdict [("file", .jstr (chars "a.py")),
      ("action", .jstr (chars "modify")), ("functions", .jlist [])])
      "action" = true :=
  normalize_plan_entry_keys [.jdict [("file", .jstr (chars "a.py"))]] []
    [.jdict [("file", .jstr (chars "a.py")),
      ("action", .jstr (chars "modify")), ("functions", .jlist [])]]
    rfl _ (by simp)

/-- C4 counterexample: the entry with file workspace/ and action delete
is kept with an empty file value and the unvalidated action delete, so
neither non-emptiness of the file nor action-in-create-modify holds. -/
theorem normalize_plan_unvalidated_counterexample :
    normalizePlan
        [.jdict [("file", .jstr (chars "workspace/")),
          ("action", .jstr (chars "delete"))]] [] =
      some [.jdict [("file", .jstr []),
        ("action", .jstr (chars "delete")), ("functions", .jlist [])]] ∧
    chars "delete" ≠ chars "create" ∧ chars "delete" ≠ chars "modify" ∧
    ([] : List Char).length = 0 := by
  refine ⟨rfl, by decide, by decide, rfl⟩

/-- C10 (amended): the prefix-strip loop tests each of the four prefixes
once, in order; since workspace/ is tested before ./, an entry whose
file starts with ./workspace/ keeps its workspace/ prefix in the
normalised plan. -/
theorem normalize_plan_keeps_workspace_prefix (rest : List Char) :
    normalizePlan
        [.jdict [("file", .jstr (chars "./workspace/" ++ rest))]] [] =
      some [.jdict [("file", .jstr (chars "workspace/" ++ rest)),
        ("action", .jstr (chars "modify")), ("functions", .jlist [])]] := rfl

/-- C10 counterexample: the loop has no break, so workspace/./a.py loses
both its workspace/ prefix and then its ./ prefix in one pass, leaving
a.py rather than one of the two single-strip results. -/
theorem normalize_plan_double_strip_counterexample :
    normalizePlan [.jdict [("file", .jstr (chars "workspace/./a.py"))]] [] =
      some [.jdict [("file", .jstr (chars "a.py")),
        ("action", .jstr (chars "modify")), ("functions", .jlist [])]] ∧
    chars "a.py" ≠ chars "./a.py" ∧
    chars "a.py" ≠ chars "workspace/./a.py" := by
  refine ⟨rfl, by decide, by decide⟩

/-- C1 (amended): sandbox_check blocks (returns a non-None reason for)
every command matching a foreground pattern; every command whose
stripped form starts with sudo and a subcommand whose basename is not on
the allowlist; and every non-sudo command that matches a write indicator
and extracts some write target resolving outside the workspace. Without
a write-indicator match the third gate is skipped even when
_resolve_write_targets would find an outside target. -/
theorem sandbox_check_gates (resolveInside : List Char → Bool)
    (wsName cmd : List Char) :
    ((fgSearch (pyStrip cmd)).isSome = true →
      (sandboxCheck resolveInside wsName cmd).isSome = true) ∧
    (∀ sub, sudoSub (pyStrip cmd) = some sub →
      ¬ SUDO_ALLOWLIST.contains (basenameChars sub) = true →
      (sandboxCheck resolveInside wsName cmd).isSome = true) ∧
    (sudoSub (pyStrip cmd) = none → wiSearch (pyStrip cmd) = true →
      (∃ t ∈ resolveWriteTargets (pyStrip cmd),
        insideWs resolveInside t = false) →
      (sandboxCheck resolveInside wsName cmd).isSome = true) := by
  simp only [sandboxCheck]
  cases hf : fgSearch (pyStrip cmd) with
  | some pat => exact ⟨fun _ => rfl, fun _ _ _ => rfl, fun _ _ _ => rfl⟩
  | none =>
    refine ⟨fun hc => by simp [hf] at hc, ?_, ?_⟩
    · intro sub hsub hnotin
      rw [hsub]
      dsimp only
      rw [if_neg hnotin]
      rfl
    · intro hns hwi hex
      rw [hns]
      dsimp only
      rw [if_pos hwi]
      cases hfind : (resolveWriteTargets (pyStrip cmd)).find?
          (fun t => !insideWs resolveInside t) with
      | some t => rfl
      | none =>
        obtain ⟨t, ht, hto⟩ := hex
        have := List.find?_eq_none.mp hfind t ht
        simp [hto] at this

/-- Witness for C1 at the disallowed command sudo evil. -/
theorem sandbox_check_gates_witness :
    (sandboxCheck (fun _ => true) (chars "/ws") (chars "sudo evil")).isSome
      = true :=
  (sandbox_check_gates (fun _ => true) (chars "/ws") (chars "sudo evil")).2.1
    (chars "evil") rfl (by decide)

/-- C1 counterexample: gcc -o /etc/evil x.c is not sudo, its extracted
write target /etc/evil resolves outside the workspace (absolute paths
are outside under this oracle), yet sandbox_check returns None because
no write indicator matches: the generic -o and --output extraction rule has
no counterpart in _WRITE_INDICATORS. -/
theorem sandbox_check_misses_output_flag :
    sandboxCheck (fun t => !(t.head? = some '/')) (chars "/ws")
        (chars "gcc -o /etc/evil x.c") = none ∧
    sudoSub (pyStrip (chars "gcc -o /etc/evil x.c")) = none ∧
    chars "/etc/evil" ∈
      resolveWriteTargets (pyStrip (chars "gcc -o /etc/evil x.c")) ∧
    insideWs (fun t => !(t.head? = some '/')) (chars "/etc/evil") = false := by
  refine ⟨rfl, rfl, ?_, rfl⟩
  decide

/-! ## String lemmas for the parse_file_blocks round trip -/

/-- A literal starts every list it prefixes. -/
theorem sw_self_append (p r : List Char) : startsWithChars p (p ++ r) = true := by
  induction p with
  | nil => rfl
  | cons x t ih => simp [startsWithChars, ih]

/-- A prefix of the pattern is itself a pattern of the same list. -/
theorem sw_of_append (p q s : List Char)
    (h : startsWithChars (p ++ q) s = true) : startsWithChars p s = true := by
  induction p generalizing s with
  | nil => rfl
  | cons x t ih =>
    cases s with
    | nil => simp [startsWithChars] at h
    | cons y u =>
      simp only [List.cons_append, startsWithChars, Bool.and_eq_true] at h ⊢
      exact ⟨h.1, ih u h.2⟩

/-- Splitting a startsWith across an append bounded by the pattern. -/
theorem sw_append_decompose (p xs ys : List Char)
    (h : startsWithChars p (xs ++ ys) = true) (hle : xs.length ≤ p.length) :
    p = xs ++ p.drop xs.length ∧
      startsWithChars (p.drop xs.length) ys = true := by
  induction xs generalizing p with
  | nil => simpa using h
  | cons x t ih =>
    cases p with
    | nil => simp at hle
    | cons a q =>
      simp only [List.cons_append, startsWithChars, Bool.and_eq_true,
        decide_eq_true_eq] at h
      obtain ⟨hax, hrest⟩ := h
      have hle2 : t.length ≤ q.length := by simpa using hle
      obtain ⟨h1, h2⟩ := ih q hrest hle2
      subst hax
      refine ⟨?_, ?_⟩
      · show a :: q = (a :: t) ++ (a :: q).drop (a :: t).length
        simp only [List.cons_append, List.length_cons, List.drop_succ_cons]
        exact congrArg (a :: ·) h1
      · show startsWithChars ((a :: q).drop (a :: t).length) ys = true
        simpa [List.length_cons, List.drop_succ_cons] using h2

/-- A pattern no longer than the first append factor restricts to it. -/
theorem sw_shorten (q xs ys : List Char)
    (h : startsWithChars q (xs ++ ys) = true) (hle : q.length ≤ xs.length) :
    startsWithChars q xs = true := by
  induction q generalizing xs with
  | nil => rfl
  | cons a t ih =>
    cases xs with
    | nil => simp at hle
    | cons x u =>
      simp only [List.cons_append, startsWithChars, Bool.and_eq_true] at h ⊢
      exact ⟨h.1, ih u h.2 (by simpa using hle)⟩

/-- No occurrence of the terminator begins inside a nonempty content that
is free of the substring ===END FILE. -/
theorem no_needle_start (c rest : List Char) (hc : c ≠ [])
    (hfree : containsSub (chars "===END FILE") c = false) :
    startsWithChars endFileTok (c ++ (endFileTok ++ rest)) = false := by
  cases hT : startsWithChars endFileTok (c ++ (endFileTok ++ rest)) with
  | false => rfl
  | true =>
    exfalso
    by_cases hlen : c.length ≤ endFileTok.length
    · obtain ⟨h1, h2⟩ := sw_append_decompose endFileTok c (endFileTok ++ rest) hT hlen
      have hdlen : (endFileTok.drop c.length).length ≤ endFileTok.length := by
        simp [List.length_drop]
      have h3 : startsWithChars (endFileTok.drop c.length) endFileTok = true :=
        sw_shorten _ _ _ h2 hdlen
      have hlt : c.length < 15 := by
        have : endFileTok.length = 14 := by decide
        omega
      have hm : c.length = 0 ∨ 11 ≤ c.length := by
        have hd : ∀ m, m < 15 →
            startsWithChars (endFileTok.drop m) endFileTok = true →
            m = 0 ∨ 11 ≤ m := by decide
        exact hd c.length hlt h3
      rcases hm with hm | hm
      · exact hc (List.length_eq_zero.mp hm)
      · have hcval : endFileTok.take c.length = c := by
          have := congrArg (List.take c.length) h1
          simpa [List.take_left] using this
        have hcont : containsSub (chars "===END FILE")
            (endFileTok.take c.length) = true := by
          have hd2 : ∀ m, m < 15 → 11 ≤ m →
              containsSub (chars "===END FILE") (endFileTok.take m) = true := by
            decide
          exact hd2 c.length hlt hm
        rw [hcval] at hcont
        exact absurd (hcont.symm.trans hfree) (by decide)
    · push_neg at hlen
      have h4 : startsWithChars endFileTok c = true :=
        sw_shorten _ _ _ hT (by omega)
      have h5 : startsWithChars (chars "===END FILE") c = true := by
        have he : chars "===END FILE" ++ chars "===" = endFileTok := by decide
        exact sw_of_append _ _ _ (by rw [he]; exact h4)
      cases c with
      | nil => exact hc rfl
      | cons y u =>
        rw [show containsSub (chars "===END FILE") (y :: u) =
          (startsWithChars (chars "===END FILE") (y :: u) ||
            containsSub (chars "===END FILE") u) from rfl, h5] at hfree
        simp at hfree

/-- splitAtFirstOcc of a list the needle starts. -/
theorem splitAtFirstOcc_of_sw (needle s : List Char) (hn : needle ≠ [])
    (hs : startsWithChars needle s = true) :
    splitAtFirstOcc needle s = some ([], s.drop needle.length) := by
  cases s with
  | nil =>
    cases needle with
    | nil => exact absurd rfl hn
    | cons a t => simp [startsWithChars] at hs
  | cons x t =>
    rw [show splitAtFirstOcc needle (x :: t) =
      (if startsWithChars needle (x :: t) then
        some ([], (x :: t).drop needle.length)
      else (splitAtFirstOcc needle t).map (fun r => (x :: r.1, r.2))) from rfl]
    rw [hs]
    simp

/-- splitAtFirstOcc at the rendered content boundary. -/
theorem splitAtFirstOcc_boundary (c rest : List Char)
    (hfree : containsSub (chars "===END FILE") c = false) :
    splitAtFirstOcc endFileTok (c ++ (endFileTok ++ rest)) = some (c, rest) := by
  induction c with
  | nil =>
    show splitAtFirstOcc endFileTok (endFileTok ++ rest) = some ([], rest)
    rw [splitAtFirstOcc_of_sw endFileTok (endFileTok ++ rest) (by decide)
      (sw_self_append _ _)]
    rw [List.drop_left]
  | cons x c2 ih =>
    have hfree2 : containsSub (chars "===END FILE") c2 = false := by
      rw [show containsSub (chars "===END FILE") (x :: c2) =
        (startsWithChars (chars "===END FILE") (x :: c2) ||
          containsSub (chars "===END FILE") c2) from rfl] at hfree
      exact (Bool.or_eq_false_iff.mp hfree).2
    have hns := no_needle_start (x :: c2) rest (by simp) hfree
    rw [List.cons_append]
    rw [show splitAtFirstOcc endFileTok (x :: (c2 ++ (endFileTok ++ rest))) =
      (if startsWithChars endFileTok (x :: (c2 ++ (endFileTok ++ rest))) then
        some ([], (x :: (c2 ++ (endFileTok ++ rest))).drop endFileTok.length)
      else (splitAtFirstOcc endFileTok (c2 ++ (endFileTok ++ rest))).map
        (fun r => (x :: r.1, r.2))) from rfl]
    rw [show startsWithChars endFileTok (x :: (c2 ++ (endFileTok ++ rest)))
      = false from by simpa using hns]
    simp [ih hfree2]

/-- takeWhile stops at a failing head just beyond the append. -/
theorem takeWhile_append_stop (p : Char → Bool) (xs : List Char) (y : Char)
    (zs : List Char) (hy : p y = false) :
    (xs ++ y :: zs).takeWhile p = xs.takeWhile p := by
  induction xs with
  | nil => simp [List.takeWhile_cons, hy]
  | cons x t ih =>
    by_cases hx : p x = true
    · simp [List.takeWhile_cons, hx, ih]
    · simp [List.takeWhile_cons, hx]

/-- lastNlIdx of a newline-free list. -/
theorem lastNlIdx_none (w : List Char) (h : '\n' ∉ w) : lastNlIdx w = none := by
  induction w with
  | nil => rfl
  | cons x t ih =>
    have hx : ¬(x = '\n') := fun he => h (by simp [he])
    have ht : '\n' ∉ t := fun hm => h (by simp [hm])
    rw [show lastNlIdx (x :: t) =
      (match lastNlIdx t with
      | some i => some (i + 1)
      | none => if x = '\n' then some 0 else none) from rfl]
    rw [ih ht]
    simp [hx]

/-- greedyWsNl at the rendered content boundary: the run ends at the
header newline when the content's leading whitespace has no newline. -/
theorem greedyWsNl_boundary (c rest : List Char)
    (hlead : '\n' ∉ c.takeWhile isPySpace) :
    greedyWsNl ('\n' :: (c ++ (endFileTok ++ rest))) =
      some (c ++ (endFileTok ++ rest)) := by
  have h1 : (c ++ (endFileTok ++ rest)).takeWhile isPySpace
      = c.takeWhile isPySpace := by
    rw [show endFileTok ++ rest = '=' :: (chars "==END FILE===" ++ rest) from rfl]
    exact takeWhile_append_stop _ _ _ _ (by decide)
  unfold greedyWsNl
  rw [show ('\n' :: (c ++ (endFileTok ++ rest))).takeWhile isPySpace
    = '\n' :: (c ++ (endFileTok ++ rest)).takeWhile isPySpace from by
      simp [List.takeWhile_cons, show isPySpace '\n' = true from rfl]]
  rw [h1]
  rw [show lastNlIdx ('\n' :: c.takeWhile isPySpace) =
    (match lastNlIdx (c.takeWhile isPySpace) with
    | some i => some (i + 1)
    | none => if '\n' = '\n' then some 0 else none) from rfl]
  rw [lastNlIdx_none _ hlead]
  simp

/-- tryTail at the === closing a rendered path. -/
theorem tryTail_boundary (c rest : List Char)
    (hlead : '\n' ∉ c.takeWhile isPySpace)
    (hfree : containsSub (chars "===END FILE") c = false) :
    tryTail (chars "===" ++ ('\n' :: (c ++ (endFileTok ++ rest)))) =
      some (c, rest) := by
  unfold tryTail
  rw [if_pos (sw_self_append _ _)]
  rw [show (chars "===" ++ ('\n' :: (c ++ (endFileTok ++ rest)))).drop 3
    = '\n' :: (c ++ (endFileTok ++ rest)) from rfl]
  rw [greedyWsNl_boundary c rest hlead]
  exact splitAtFirstOcc_boundary c rest hfree

/-- The lazy path search finds exactly the rendered path. -/
theorem lazyPathGo_boundary (p : List Char) (acc c rest : List Char)
    (hp : p ≠ []) (hpc : ∀ ch ∈ p, isPySpace ch = false ∧ ch ≠ '=')
    (hlead : '\n' ∉ c.takeWhile isPySpace)
    (hfree : containsSub (chars "===END FILE") c = false) :
    lazyPathGo acc
        (p ++ (chars "===" ++ ('\n' :: (c ++ (endFileTok ++ rest))))) =
      some (acc ++ p, c, rest) := by
  induction p generalizing acc with
  | nil => exact absurd rfl hp
  | cons x p2 ih =>
    have hx := hpc x (by simp)
    have hxn : ¬(x = '\n') := fun he => by
      rw [he] at hx
      exact absurd hx.1 (by decide)
    rw [List.cons_append]
    rw [show lazyPathGo acc
        (x :: (p2 ++ (chars "===" ++ ('\n' :: (c ++ (endFileTok ++ rest))))))
      = (if x = '\n' then none
        else
          match tryTail
              (p2 ++ (chars "===" ++ ('\n' :: (c ++ (endFileTok ++ rest))))) with
          | some (body, after) => some (acc ++ [x], body, after)
          | none =>
            lazyPathGo (acc ++ [x])
              (p2 ++ (chars "===" ++ ('\n' :: (c ++ (endFileTok ++ rest))))))
      from rfl]
    rw [if_neg hxn]
    cases hp2 : p2 with
    | nil =>
      simp only [List.nil_append]
      rw [tryTail_boundary c rest hlead hfree]
    | cons y q =>
      have hy := hpc y (by simp [hp2])
      have hsw : startsWithChars (chars "===")
          (y :: (q ++ (chars "===" ++ ('\n' :: (c ++ (endFileTok ++ rest))))))
          = false := by
        rw [show startsWithChars (chars "===")
            (y :: (q ++ (chars "===" ++ ('\n' :: (c ++ (endFileTok ++ rest))))))
          = (decide ('=' = y) &&
              startsWithChars (chars "==")
                (q ++ (chars "===" ++ ('\n' :: (c ++ (endFileTok ++ rest))))))
          from rfl]
        rw [decide_eq_false (fun he => hy.2 he.symm), Bool.false_and]
      have htt : tryTail
          ((y :: q) ++ (chars "===" ++ ('\n' :: (c ++ (endFileTok ++ rest)))))
          = none := by
        unfold tryTail
        rw [List.cons_append, hsw]
        rfl
      rw [htt]
      have hih := ih (acc ++ [x])
        (by rw [hp2]; exact List.cons_ne_nil y q)
        (fun ch hm => hpc ch (List.mem_cons_of_mem x hm))
      rw [hp2] at hih
      show lazyPathGo (acc ++ [x])
          ((y :: q) ++ (chars "===" ++ ('\n' :: (c ++ (endFileTok ++ rest)))))
        = some (acc ++ x :: y :: q, c, rest)
      rw [hih]
      simp

/-- matchAt at the start of a rendered block. -/
theorem matchAt_boundary (p c rest : List Char)
    (hp : p ≠ []) (hpc : ∀ ch ∈ p, isPySpace ch = false ∧ ch ≠ '=')
    (hlead : '\n' ∉ c.takeWhile isPySpace)
    (hfree : containsSub (chars "===END FILE") c = false) :
    matchAt (renderBlock p c ++ rest) = some (p, c, rest) := by
  have hshape : renderBlock p c ++ rest =
      chars "===FILE:" ++
        (' ' :: (p ++ (chars "===" ++ ('\n' :: (c ++ (endFileTok ++ rest)))))) := by
    simp only [renderBlock, List.append_assoc]
    rfl
  rw [hshape]
  unfold matchAt
  rw [if_pos (sw_self_append _ _)]
  rw [show (chars "===FILE:" ++
      (' ' :: (p ++ (chars "===" ++ ('\n' :: (c ++ (endFileTok ++ rest))))))).drop 8
    = ' ' :: (p ++ (chars "===" ++ ('\n' :: (c ++ (endFileTok ++ rest)))))
    from by
      rw [show (8 : Nat) = (chars "===FILE:").length from rfl, List.drop_left]]
  obtain ⟨z, p2, rfl⟩ : ∃ z p2, p = z :: p2 := by
    cases p with
    | nil => exact absurd rfl hp
    | cons z p2 => exact ⟨z, p2, rfl⟩
  have hz := hpc z (by simp)
  have hrun : ((' ' :: ((z :: p2) ++
      (chars "===" ++ ('\n' :: (c ++ (endFileTok ++ rest)))))).takeWhile
        isPySpace).length = 1 := by
    rw [List.takeWhile_cons]
    rw [if_pos (by decide)]
    rw [List.cons_append, List.takeWhile_cons, if_neg (by simp [hz.1])]
    rfl
  show wsBack (' ' :: ((z :: p2) ++
      (chars "===" ++ ('\n' :: (c ++ (endFileTok ++ rest))))))
      (((' ' :: ((z :: p2) ++
        (chars "===" ++ ('\n' :: (c ++ (endFileTok ++ rest)))))).takeWhile
          isPySpace).length)
    = some (z :: p2, c, rest)
  rw [hrun]
  rw [show wsBack (' ' :: ((z :: p2) ++
      (chars "===" ++ ('\n' :: (c ++ (endFileTok ++ rest)))))) 1 =
    (match lazyPathGo []
        ((' ' :: ((z :: p2) ++
          (chars "===" ++ ('\n' :: (c ++ (endFileTok ++ rest)))))).drop 1) with
    | some r => some r
    | none =>
      match lazyPathGo [] (' ' :: ((z :: p2) ++
          (chars "===" ++ ('\n' :: (c ++ (endFileTok ++ rest)))))) with
      | some r => some r
      | none => none) from rfl]
  rw [show ((' ' :: ((z :: p2) ++
      (chars "===" ++ ('\n' :: (c ++ (endFileTok ++ rest))))))).drop 1
    = (z :: p2) ++ (chars "===" ++ ('\n' :: (c ++ (endFileTok ++ rest))))
    from rfl]
  rw [lazyPathGo_boundary (z :: p2) [] c rest hp hpc hlead hfree]
  simp

/-- scanBlocksGo unfolding on a nonempty input. -/
theorem scanBlocksGo_succ (fuel : Nat) (s : List Char) (hs : s ≠ []) :
    scanBlocksGo (fuel + 1) s =
      match matchAt s with
      | some (p, body, after) => (pyStrip p, body) :: scanBlocksGo fuel after
      | none => scanBlocksGo fuel s.tail := by
  cases s with
  | nil => exact absurd rfl hs
  | cons x t => rfl

/-- dropWhile is the identity on predicate-free lists. -/
theorem dropWhile_eq_self_of (p : Char → Bool) (l : List Char)
    (h : ∀ ch ∈ l, p ch = false) : l.dropWhile p = l := by
  cases l with
  | nil => rfl
  | cons x t =>
    rw [List.dropWhile_cons_of_neg (by simp [h x (by simp)])]

/-- pyStrip is the identity on whitespace-free text. -/
theorem pyStrip_of_nows (l : List Char)
    (h : ∀ ch ∈ l, isPySpace ch = false) : pyStrip l = l := by
  unfold pyStrip pyLstrip pyRstrip
  rw [dropWhile_eq_self_of _ _ h]
  rw [dropWhile_eq_self_of _ _ (fun ch hm => h ch (List.mem_reverse.mp hm))]
  simp

/-- Length of a rendered block. -/
theorem renderBlock_length (p c : List Char) :
    (renderBlock p c).length = p.length + c.length + 27 := by
  have h1 : (chars "===FILE: ").length = 9 := rfl
  have h2 : (chars "===").length = 3 := rfl
  have h4 : endFileTok.length = 14 := rfl
  simp only [renderBlock, List.length_append, h1, h2, h4,
    List.length_singleton]
  omega

/-- C7 (amended): parse_file_blocks inverts the block generator for every
list of path-content pairs in which each path is nonempty and free of
whitespace and equals signs, and each content neither contains the
substring ===END FILE nor has a newline inside its leading whitespace
run; without the extra conditions the greedy whitespace consumption after
the header can swallow a content's leading newline. -/
theorem parse_file_blocks_roundtrip (blocks : List (List Char × List Char))
    (hcond : ∀ pc ∈ blocks,
      pc.1 ≠ [] ∧ (∀ ch ∈ pc.1, isPySpace ch = false ∧ ch ≠ '=') ∧
      '\n' ∉ pc.2.takeWhile isPySpace ∧
      containsSub (chars "===END FILE") pc.2 = false) :
    parseFileBlocks (renderBlocks blocks) = blocks := by
  have main : ∀ (bs : List (List Char × List Char)) (fuel : Nat),
      (∀ pc ∈ bs,
        pc.1 ≠ [] ∧ (∀ ch ∈ pc.1, isPySpace ch = false ∧ ch ≠ '=') ∧
        '\n' ∉ pc.2.takeWhile isPySpace ∧
        containsSub (chars "===END FILE") pc.2 = false) →
      (renderBlocks bs).length ≤ fuel →
      scanBlocksGo fuel (renderBlocks bs) = bs := by
    intro bs
    induction bs with
    | nil =>
      intro fuel _ _
      cases fuel <;> rfl
    | cons b bs2 ih =>
      intro fuel hc hlen
      obtain ⟨p, c⟩ := b
      obtain ⟨hp, hpc, hlead, hfree⟩ := hc (p, c) (by simp)
      have hc2 : ∀ pc ∈ bs2,
          pc.1 ≠ [] ∧ (∀ ch ∈ pc.1, isPySpace ch = false ∧ ch ≠ '=') ∧
          '\n' ∉ pc.2.takeWhile isPySpace ∧
          containsSub (chars "===END FILE") pc.2 = false :=
        fun pc hm => hc pc (by simp [hm])
      have hrbs : renderBlocks ((p, c) :: bs2) =
          renderBlock p c ++ renderBlocks bs2 := rfl
      have hrblen := renderBlock_length p c
      rw [hrbs, List.length_append] at hlen
      cases fuel with
      | zero => omega
      | succ f =>
        rw [hrbs]
        rw [scanBlocksGo_succ f _ (by
          intro hnil
          have hlz := congrArg List.length hnil
          rw [List.length_append] at hlz
          simp only [List.length_nil] at hlz
          omega)]
        rw [matchAt_boundary p c (renderBlocks bs2) hp hpc hlead hfree]
        show (pyStrip p, c) :: scanBlocksGo f (renderBlocks bs2) = (p, c) :: bs2
        rw [pyStrip_of_nows p (fun ch hm => (hpc ch hm).1)]
        rw [ih f hc2 (by omega)]
  exact main blocks (renderBlocks blocks).length hcond le_rfl

/-- Witness for C7 at a one-block list. -/
theorem parse_file_blocks_roundtrip_witness :
    parseFileBlocks (renderBlocks [(chars "a.py", chars "print(1)\n")]) =
      [(chars "a.py", chars "print(1)\n")] :=
  parse_file_blocks_roundtrip [(chars "a.py", chars "print(1)\n")] (by decide)

/-- C7 counterexample: a content starting with a newline contains no
terminator line, yet the round trip loses that newline: the greedy
whitespace-then-newline of the header pattern absorbs it. -/
theorem parse_file_blocks_leading_newline_counterexample :
    containsSub (chars "===END FILE===") (chars "\nhello") = false ∧
    parseFileBlocks (renderBlocks [(chars "a.py", chars "\nhello")]) =
      [(chars "a.py", chars "hello")] ∧
    chars "hello" ≠ chars "\nhello" := by
  refine ⟨by decide, rfl, by decide⟩

end Isomira
